import Mathlib

/-!
Verification of the medellin-milagros pipeline (landing stage
`src/ingestion/milagros/births/milagros.py` and transformation stage
`src/silver/milagros/silver_milagros.py`) against its specification.

Strings are modelled as lists of characters; character classes
(whitespace, combining marks, the NFKD decomposition table and Unicode
simple lowercasing) are modelled over the code points the pipeline's
data actually uses, identically on both sides of every comparison.
-/

namespace Milagros

/-- Whitespace model for Python `str.strip()` and the regex class `\s`
(space, tab, newline, carriage return, vertical tab, form feed). -/
def isWs (c : Char) : Bool :=
  decide (c.toNat = 32 ∨ c.toNat = 9 ∨ c.toNat = 10 ∨ c.toNat = 13 ∨
          c.toNat = 11 ∨ c.toNat = 12)

/-- Characters kept by the regex deletion `[^a-z0-9_]` in `clean_col`:
lowercase ASCII letters, ASCII digits, underscore. -/
def isAllowed (c : Char) : Bool :=
  decide ((97 ≤ c.toNat ∧ c.toNat ≤ 122) ∨ (48 ≤ c.toNat ∧ c.toNat ≤ 57) ∨
          c.toNat = 95)

/-- Underscore test, for `str.strip("_")` and the `_+` collapse. -/
def isU (c : Char) : Bool := decide (c.toNat = 95)

/-- Combining-mark model: the Unicode combining diacritical marks block
U+0300..U+036F, which covers every mark produced by the decomposition
table below (`unicodedata.combining(ch) > 0` on this domain). -/
def combiningMark (c : Char) : Bool :=
  decide (768 ≤ c.toNat ∧ c.toNat ≤ 879)

/-- Unicode simple lowercasing as performed by Python `str.lower()` on
this domain: ASCII `A`–`Z` and the Latin-1 uppercase letters
`À` (0xC0) – `Þ` (0xDE) except `×` (0xD7) map down by 32. -/
def pyLower (c : Char) : Char :=
  if 65 ≤ c.toNat ∧ c.toNat ≤ 90 then Char.ofNat (c.toNat + 32)
  else if 192 ≤ c.toNat ∧ c.toNat ≤ 222 ∧ c.toNat ≠ 215 then Char.ofNat (c.toNat + 32)
  else c

/-- NFKD decomposition (`unicodedata.normalize("NFKD", ·)`) modelled
per character for the accented Latin-1 lowercase letters the dataset's
headers use: base letter followed by a combining mark.  Every other
character decomposes to itself. -/
def nfkd (c : Char) : List Char :=
  if c.toNat = 225 then ['a', Char.ofNat 769]      -- á
  else if c.toNat = 233 then ['e', Char.ofNat 769] -- é
  else if c.toNat = 237 then ['i', Char.ofNat 769] -- í
  else if c.toNat = 243 then ['o', Char.ofNat 769] -- ó
  else if c.toNat = 250 then ['u', Char.ofNat 769] -- ú
  else if c.toNat = 241 then ['n', Char.ofNat 771] -- ñ
  else if c.toNat = 252 then ['u', Char.ofNat 776] -- ü
  else if c.toNat = 224 then ['a', Char.ofNat 768] -- à
  else if c.toNat = 232 then ['e', Char.ofNat 768] -- è
  else if c.toNat = 236 then ['i', Char.ofNat 768] -- ì
  else if c.toNat = 242 then ['o', Char.ofNat 768] -- ò
  else if c.toNat = 249 then ['u', Char.ofNat 768] -- ù
  else if c.toNat = 231 then ['c', Char.ofNat 807] -- ç
  else [c]

/-- Drop trailing characters satisfying `p` (the right half of
Python's `str.strip`). -/
def dropTrail (p : Char → Bool) : List Char → List Char
  | [] => []
  | c :: l =>
    let t := dropTrail p l
    if t.isEmpty ∧ p c then [] else c :: t

/-- Python `str.strip(chars)`: drop leading and trailing characters
satisfying `p`. -/
def trimBoth (p : Char → Bool) (s : List Char) : List Char :=
  dropTrail p (s.dropWhile p)

/-- Model of `re.sub(r"\s+", "_", ·)`: each maximal run of whitespace
becomes a single underscore. -/
def squashWs : List Char → List Char
  | [] => []
  | [c] => if isWs c then ['_'] else [c]
  | c :: d :: rest =>
    if isWs c ∧ isWs d then squashWs (d :: rest)
    else (if isWs c then '_' else c) :: squashWs (d :: rest)

/-- Model of `re.sub(r"_+", "_", ·)`: each run of underscores becomes
a single underscore. -/
def squashU : List Char → List Char
  | [] => []
  | [c] => [c]
  | c :: d :: rest =>
    if isU c ∧ isU d then squashU (d :: rest)
    else c :: squashU (d :: rest)

/-- Embedding of `clean_col` (silver_milagros.py lines 20–78), one
rebinding per source statement:
`strip().lower()`; NFKD; drop combining marks; `\s+` to `_`;
delete `[^a-z0-9_]`; collapse `_+`; `strip("_")`. -/
def cleanColL (s : List Char) : List Char :=
  let n1 := (trimBoth isWs s).map pyLower
  let n2 := (n1.flatMap nfkd).filter (fun c => !combiningMark c)
  let n3 := squashWs n2
  let n4 := n3.filter isAllowed
  let n5 := squashU n4
  trimBoth isU n5

/-- String-level `clean_col`. -/
def clean_col (s : String) : String := String.mk (cleanColL s.data)

/-- Specification-side normalization, following the spec's wording:
steps (a) trim and lowercase, (b) decompose and drop combining marks,
(c) whitespace runs to one underscore, (d) delete all but lowercase
ASCII letters, digits and underscore, (e) collapse underscore runs,
(f) trim underscores — applied in that order as one composition. -/
def cleanColSpecL (s : List Char) : List Char :=
  trimBoth isU
    (squashU
      ((squashWs
        (((trimBoth isWs s).map pyLower).flatMap nfkd
          |>.filter (fun c => !combiningMark c))).filter isAllowed))

/-- String-level spec-side normalization. -/
def cleanColSpec (s : String) : String := String.mk (cleanColSpecL s.data)

/-- No two adjacent underscores anywhere in the list. -/
def noDD : List Char → Bool
  | c :: d :: rest => !(isU c && isU d) && noDD (d :: rest)
  | _ => true

/-- Head, if any, is not an underscore. -/
def headNotU (s : List Char) : Bool :=
  match s.head? with
  | some c => !isU c
  | none => true

/-- Last character, if any, is not an underscore. -/
def lastNotU (s : List Char) : Bool :=
  match s.getLast? with
  | some c => !isU c
  | none => true

/-- Normal form of a cleaned column name: only `[a-z0-9_]` characters,
no doubled underscore, no leading or trailing underscore. -/
def isNormal (s : List Char) : Bool :=
  s.all isAllowed && noDD s && headNotU s && lastNotU s

/-- Head, if any, does not satisfy `p`. -/
def headNot (p : Char → Bool) (s : List Char) : Bool :=
  match s.head? with
  | some c => !p c
  | none => true

/-- Last character, if any, does not satisfy `p`. -/
def lastNot (p : Char → Bool) (s : List Char) : Bool :=
  match s.getLast? with
  | some c => !p c
  | none => true

/-- Cell values of the tabular dataset: a signed integer, free text, or
the missing marker (pandas `NA`/`NaN`). -/
inductive Cell where
  | intV : Int → Cell
  | strV : List Char → Cell
  | na : Cell
deriving DecidableEq

/-- Named column of the dataset; `isText` records whether pandas loaded
the column with the text-like `object` dtype. -/
structure Column where
  name : String
  isText : Bool
  cells : List Cell
deriving DecidableEq

/-- Stringification performed by `astype("string")` on a text-like
column: a non-missing non-string value becomes its decimal text;
missing stays missing. -/
def cellAsString : Cell → Cell
  | .intV n => .strV (toString n).data
  | c => c

/-- Per-cell `.str.strip()` (silver_milagros.py line 148): trim
leading/trailing whitespace of a text value; other cells unchanged. -/
def stripCell : Cell → Cell
  | .strV s => .strV (trimBoth isWs s)
  | c => c

/-- Dataset-wide `df.replace({"": pd.NA})` (line 163) applied to one
cell: an empty text value becomes the missing marker. -/
def emptyToNA : Cell → Cell
  | .strV [] => .na
  | c => c

/-- First half of StandardizeValues (lines 127–148): on each
text-typed (`object` dtype) column, stringify and trim every cell. -/
def standardizeColumn (col : Column) : Column :=
  if col.isText then
    { col with cells := col.cells.map (fun c => stripCell (cellAsString c)) }
  else col

/-- Second half of StandardizeValues (line 163): dataset-wide
empty-string-to-missing conversion, applied to every column. -/
def replaceEmptyColumn (col : Column) : Column :=
  { col with cells := col.cells.map emptyToNA }

/-- StandardizeValues: per-cell trim on text columns first, then the
global empty-string-to-missing replacement. -/
def standardizeValues (df : List Column) : List Column :=
  (df.map standardizeColumn).map replaceEmptyColumn

/-- Python `str.startswith` over character lists. -/
def startsWithL : List Char → List Char → Bool
  | _, [] => true
  | [], _ :: _ => false
  | c :: s, p :: ps => c = p && startsWithL s ps

/-- Drop the placeholder columns whose cleaned name begins with
`unnamed` (lines 186–188). -/
def dropUnnamed (df : List Column) : List Column :=
  df.filter (fun col => !startsWithL col.name.data "unnamed".data)

/-- Integer columns hardened to nullable Int64 (line 200). -/
def int_cols : List String := ["ano", "periodo_de_reporte"]

/-- Nullable integer age columns (line 206). -/
def age_cols : List String := ["edad_madre", "edad_padre"]

/-- Key categorical columns converted to nullable text (lines 212–217). -/
def cat_cols : List String :=
  ["sexo", "nivel_educativo_madre", "nivel_educativo_padre",
   "profesion_certificador"]

/-- Result of numeric parsing by `pd.to_numeric`: an integral value, a
finite numeric value with a nonzero fractional part, or an infinity. -/
inductive NumVal where
  | int : Int → NumVal
  | frac : NumVal
  | inf : NumVal
deriving DecidableEq

/-- ASCII digit test. -/
def isDigitCh (c : Char) : Bool := decide (48 ≤ c.toNat ∧ c.toNat ≤ 57)

/-- Decimal value of a digit string. -/
def natOfDigits (l : List Char) : Nat :=
  l.foldl (fun a c => a * 10 + (c.toNat - 48)) 0

/-- Non-finite spellings accepted by the pandas numeric parser after
the optional sign (mirroring C `strtod`): `inf` and `infinity`,
case-insensitive. -/
def isInfBody (body : List Char) : Bool :=
  let l := body.map pyLower
  decide (l = ['i', 'n', 'f'] ∨ l = ['i', 'n', 'f', 'i', 'n', 'i', 't', 'y'])

/-- Classification of a parsed decimal: the value
`± mant * 10 ^ (ev - flen)` (mantissa digits `mant`, `flen` fraction
digits, exponent `ev`) is the integer it equals exactly, or
non-integral. -/
def decToNumVal (neg : Bool) (mant flen : Nat) (ev : Int) : NumVal :=
  let k : Int := ev - (flen : Int)
  if 0 ≤ k then
    let v : Int := (mant : Int) * (10 : Int) ^ k.toNat
    .int (if neg then -v else v)
  else
    let d : Nat := (-k).toNat
    if mant % 10 ^ d = 0 then
      let v : Int := ((mant / 10 ^ d : Nat) : Int)
      .int (if neg then -v else v)
    else .frac

/-- Numeric parsing as performed by `pd.to_numeric(·, errors="coerce")`
on an (already trimmed) text cell, mirroring the pandas C parser: an
optional sign, then either a non-finite spelling (`inf`/`infinity`,
case-insensitive) or a decimal mantissa — digits with an optional
decimal point, at least one digit — with an optional `e`/`E` exponent
carrying an optional sign and at least one digit; any other string
fails to parse and is coerced to missing.  A finite parse is
classified by its exact decimal value as the integer it equals or as
non-integral (`frac`); float64 rounding of inputs beyond 15–16
significant digits is not modelled. -/
def parseNumeric (s : List Char) : Option NumVal :=
  let signed : Bool × List Char :=
    match s with
    | '-' :: r => (true, r)
    | '+' :: r => (false, r)
    | r => (false, r)
  let body := signed.2
  if isInfBody body then some .inf
  else
    let ip := body.takeWhile isDigitCh
    let rest1 := body.dropWhile isDigitCh
    let hasDot : Bool := match rest1 with | '.' :: _ => true | _ => false
    let afterDot := rest1.tail
    let fp := if hasDot then afterDot.takeWhile isDigitCh else []
    let rest2 := if hasDot then afterDot.dropWhile isDigitCh else rest1
    if ip.isEmpty ∧ fp.isEmpty then none
    else
      let mant := natOfDigits (ip ++ fp)
      match rest2 with
      | [] => some (decToNumVal signed.1 mant fp.length 0)
      | c :: r3 =>
        if c = 'e' ∨ c = 'E' then
          let esigned : Bool × List Char :=
            match r3 with
            | '-' :: r4 => (true, r4)
            | '+' :: r4 => (false, r4)
            | r4 => (false, r4)
          if esigned.2.isEmpty ∨ ¬(esigned.2.all isDigitCh = true) then none
          else
            some (decToNumVal signed.1 mant fp.length
              (if esigned.1 then -(natOfDigits esigned.2 : Int)
               else (natOfDigits esigned.2 : Int)))
        else none

/-- Error message pandas raises when `astype("Int64")` meets a finite
non-integral float. -/
def castErrMsg : String := "cannot safely cast non-equivalent float64 to int64"

/-- Error message pandas raises when `astype("Int64")` meets an
infinite float. -/
def nonFiniteErrMsg : String :=
  "Cannot convert non-finite values (NA or inf) to integer"

/-- Hardening of one cell of a named integer column
(`pd.to_numeric(·, errors="coerce").astype("Int64")`, lines 203/209):
missing stays missing, an integer stays, unparseable text is coerced
to missing, integral numeric text becomes its integer, and numeric
text whose value is non-integral or infinite makes the cast raise. -/
def hardenCellInt (c : Cell) : Except String Cell :=
  match c with
  | .na => .ok .na
  | .intV n => .ok (.intV n)
  | .strV s =>
    match parseNumeric s with
    | none => .ok .na
    | some (.int n) => .ok (.intV n)
    | some .frac => .error castErrMsg
    | some .inf => .error nonFiniteErrMsg

/-- HardenTypes on one column: the named integer/age columns are
coerced cell-by-cell, the named categorical columns are converted to
nullable text, every other column is left as loaded.  Iterating over
the dataset's own columns makes a named column that is absent be
skipped silently. -/
def hardenColumn (col : Column) : Except String Column :=
  if int_cols.contains col.name ∨ age_cols.contains col.name then
    (col.cells.mapM hardenCellInt).map
      (fun cs => { col with isText := false, cells := cs })
  else if cat_cols.contains col.name then
    .ok { col with isText := true, cells := col.cells.map cellAsString }
  else .ok col

/-- HardenTypes over the dataset (lines 199–220). -/
def hardenTypes (df : List Column) : Except String (List Column) :=
  df.mapM hardenColumn

/-- Decidable equality for `Except`, so that contract outcomes can be
evaluated on concrete datasets. -/
instance {ε α : Type} [DecidableEq ε] [DecidableEq α] : DecidableEq (Except ε α) := fun x y =>
  match x, y with
  | .error a, .error b =>
    if h : a = b then isTrue (congrArg Except.error h)
    else isFalse (fun hh => h (Except.error.inj hh))
  | .ok a, .ok b =>
    if h : a = b then isTrue (congrArg Except.ok h)
    else isFalse (fun hh => h (Except.ok.inj hh))
  | .error _, .ok _ => isFalse (fun hh => Except.noConfusion hh)
  | .ok _, .error _ => isFalse (fun hh => Except.noConfusion hh)

/-- Filesystem paths as component lists. -/
abbrev FsPath := List String

/-- Failure modes of the Transformation Stage. -/
inductive SilverErr where
  | rawNotFound : FsPath → SilverErr
  | loadFailed : String → SilverErr
  | castFailed : String → SilverErr
  | missingColumns : List String → SilverErr
  | edadMadreRange : SilverErr
  | anoRange : SilverErr
  | writeFailed : SilverErr
deriving DecidableEq

/-- Required columns of the silver contract (lines 228–236). -/
def required_cols : List String :=
  ["ano", "periodo_de_reporte", "sexo", "fecha_nacimiento", "edad_madre",
   "municipio_residencia", "edad_padre"]

/-- Column names of a dataset, in order. -/
def colNames (df : List Column) : List String := df.map (fun c => c.name)

/-- Lookup of a column by name. -/
def findCol (df : List Column) (n : String) : Option Column :=
  df.find? (fun c => c.name = n)

/-- One cell of the `dropna()`-then-compare range check
(`(s < lo) | (s > hi)`): a non-missing integer strictly outside
`[lo, hi]`; a missing cell never triggers. -/
def cellOutOfRange (lo hi : Int) (c : Cell) : Bool :=
  match c with
  | .intV v => decide (v < lo ∨ hi < v)
  | _ => false

/-- Column-level range check of lines 243–244 and 248–249. -/
def rangeViolation (lo hi : Int) (cells : List Cell) : Bool :=
  cells.any (cellOutOfRange lo hi)

/-- Sanity check on `edad_madre` (lines 242–245): raises only if the
column is present and some non-missing value is outside 10–60. -/
def checkEdadMadre (df : List Column) : Except SilverErr Unit :=
  match findCol df "edad_madre" with
  | some col =>
    if rangeViolation 10 60 col.cells then .error .edadMadreRange else .ok ()
  | none => .ok ()

/-- Sanity check on `ano` (lines 247–250): raises only if the column
is present and some non-missing value is outside 2000–2035. -/
def checkAno (df : List Column) : Except SilverErr Unit :=
  match findCol df "ano" with
  | some col =>
    if rangeViolation 2000 2035 col.cells then .error .anoRange else .ok ()
  | none => .ok ()

/-- ValidateContract (lines 225–250): the required-column check raises
first; only when it passes does the `edad_madre` range check run, and
only when that passes does the `ano` range check run. -/
def validateContract (df : List Column) : Except SilverErr Unit :=
  let missing := required_cols.filter (fun c => !(colNames df).contains c)
  if !missing.isEmpty then .error (.missingColumns missing)
  else
    match checkEdadMadre df with
    | .error e => .error e
    | .ok _ => checkAno df

/-- NormalizeSchema (line 116): clean every column name. -/
def normalizeSchema (df : List Column) : List Column :=
  df.map (fun col => { col with name := clean_col col.name })

/-- In-memory part of the Transformation Stage, in source order:
normalize schema, standardize values, drop placeholder columns,
harden types, validate the contract. -/
def silverTransform (df : List Column) : Except SilverErr (List Column) :=
  match hardenTypes (dropUnnamed (standardizeValues (normalizeSchema df))) with
  | .error m => .error (.castFailed m)
  | .ok df4 =>
    match validateContract df4 with
    | .error e => .error e
    | .ok _ => .ok df4

/-- Record a completed file write; the filesystem is a set of file
paths, so overwriting is absorption (directories are not modelled:
`mkdir(exist_ok=True)` touches no files). -/
def addFile (fs : List FsPath) (p : FsPath) : List FsPath :=
  if p ∈ fs then fs else fs ++ [p]

/-- Configuration of the Landing Stage: raw base, partition date, and
the configured source file (directory and filename). -/
structure LandingCfg where
  rawBase : FsPath
  ingestDate : String
  sourceDir : FsPath
  sourceName : String
deriving DecidableEq

/-- Partition directory `raw_base / f"ingest_date={ingest_date}"`. -/
def landOutDir (cfg : LandingCfg) : FsPath :=
  cfg.rawBase ++ ["ingest_date=" ++ cfg.ingestDate]

/-- Destination `out_dir / source_xlsx_path.name` (milagros.py line 64). -/
def landDest (cfg : LandingCfg) : FsPath := landOutDir cfg ++ [cfg.sourceName]

/-- Marker `out_dir / "_SUCCESS"` (line 63). -/
def landMarker (cfg : LandingCfg) : FsPath := landOutDir cfg ++ ["_SUCCESS"]

/-- The configured source file path. -/
def landSource (cfg : LandingCfg) : FsPath := cfg.sourceDir ++ [cfg.sourceName]

/-- Observable outcomes of one Landing Stage run. -/
inductive LandOutcome where
  | skipped | landed | sourceMissing | copyFailed
deriving DecidableEq

/-- The Landing Stage (milagros.py `main`, lines 19–98): skip when
marker and destination both exist (checked before source validation),
else fail on a missing source, else copy then touch the marker.
`copyOk` models whether the `shutil.copy2` call raises; a failed copy
never touches the marker but may leave partial bytes at the
destination (`keepPartial`). -/
def landingRun (fs : List FsPath) (cfg : LandingCfg) (copyOk keepPartial : Bool) :
    List FsPath × LandOutcome :=
  if landMarker cfg ∈ fs ∧ landDest cfg ∈ fs then (fs, .skipped)
  else if landSource cfg ∉ fs then (fs, .sourceMissing)
  else if copyOk then
    (addFile (addFile fs (landDest cfg)) (landMarker cfg), .landed)
  else ((if keepPartial then addFile fs (landDest cfg) else fs), .copyFailed)

/-- Configuration of the Transformation Stage. -/
structure SilverCfg where
  rawBase : FsPath
  silverBase : FsPath
  ingestDate : String
deriving DecidableEq

/-- Raw file the Transformation Stage reads (silver_milagros.py
line 90): the filename is the fixed `Nacimientos_HGM.xlsx`. -/
def silverRawFile (cfg : SilverCfg) : FsPath :=
  cfg.rawBase ++ ["ingest_date=" ++ cfg.ingestDate, "Nacimientos_HGM.xlsx"]

/-- Silver parquet output path (line 98). -/
def silverOutParquet (cfg : SilverCfg) : FsPath :=
  cfg.silverBase ++ ["ingest_date=" ++ cfg.ingestDate, "milagros_hgm.parquet"]

/-- Silver `_SUCCESS` marker path (line 100). -/
def silverSuccessMarker (cfg : SilverCfg) : FsPath :=
  cfg.silverBase ++ ["ingest_date=" ++ cfg.ingestDate, "_SUCCESS"]

/-- Result of one Transformation Stage run: the filesystem after the
run, the completed artifact writes of this run in order, and the
terminal outcome. -/
structure SilverResult where
  fs : List FsPath
  writes : List FsPath
  outcome : Except SilverErr Unit

/-- The Transformation Stage (silver_milagros.py `main`): check the
raw file exists, load it (`load` models `pd.read_excel`), run the
in-memory transform, then write the parquet and touch the marker in
that order.  `parquetOk` models whether `to_parquet` raises; a failed
parquet write never touches the marker but may leave a partial file
(`keepPartial`). -/
def silverRun (fs : List FsPath) (cfg : SilverCfg)
    (load : Except String (List Column)) (parquetOk keepPartial : Bool) :
    SilverResult :=
  if silverRawFile cfg ∉ fs then
    ⟨fs, [], .error (.rawNotFound (silverRawFile cfg))⟩
  else
    match load with
    | .error m => ⟨fs, [], .error (.loadFailed m)⟩
    | .ok df =>
      match silverTransform df with
      | .error e => ⟨fs, [], .error e⟩
      | .ok _ =>
        if parquetOk then
          ⟨addFile (addFile fs (silverOutParquet cfg)) (silverSuccessMarker cfg),
           [silverOutParquet cfg, silverSuccessMarker cfg], .ok ()⟩
        else
          ⟨(if keepPartial then addFile fs (silverOutParquet cfg) else fs), [],
           .error .writeFailed⟩

/-- Dataset used to refute independence of the contract rules: the two
range-checked columns are present (with an out-of-range age of 99) but
five required columns are missing. -/
def dfC1 : List Column :=
  [⟨"edad_madre", false, [.intV 99]⟩, ⟨"ano", false, [.intV 2024]⟩]

/-- Dataset containing all required columns with in-range values; the
Transformation Stage succeeds on it. -/
def dfOK : List Column :=
  [⟨"ano", false, [.intV 2024]⟩,
   ⟨"periodo_de_reporte", false, [.intV 1]⟩,
   ⟨"sexo", true, [.strV ['f']]⟩,
   ⟨"fecha_nacimiento", true, [.strV ['x']]⟩,
   ⟨"edad_madre", false, [.intV 35]⟩,
   ⟨"municipio_residencia", true, [.strV ['m']]⟩,
   ⟨"edad_padre", false, [.intV 40]⟩]

/-- Concrete silver configuration for witnesses. -/
def cfgS0 : SilverCfg := ⟨["raw", "milagros"], ["processed", "silver", "milagros"], "2026-01-30"⟩

/-- Concrete landing configuration for witnesses. -/
def cfgL0 : LandingCfg := ⟨["raw", "milagros"], "2026-01-30", ["data", "milagros"], "Nacimientos_HGM.xlsx"⟩

theorem cleanColL_eq (s : List Char) :
    cleanColL s =
      trimBoth isU
        (squashU
          ((squashWs
            ((((trimBoth isWs s).map pyLower).flatMap nfkd).filter
              (fun c => !combiningMark c))).filter isAllowed)) := rfl

theorem char_eq_of_toNat (c d : Char) (h : c.toNat = d.toNat) : c = d := by
  apply Char.ext; apply UInt32.ext; exact h

theorem isU_eq_underscore (c : Char) (h : isU c = true) : c = '_' := by
  apply char_eq_of_toNat
  simp [isU] at h
  simpa using h

theorem allowed_not_ws (c : Char) (h : isAllowed c = true) : isWs c = false := by
  simp [isAllowed] at h
  simp [isWs]
  omega

theorem allowed_pyLower (c : Char) (h : isAllowed c = true) : pyLower c = c := by
  simp [isAllowed] at h
  unfold pyLower
  rw [if_neg (by omega), if_neg (by omega)]

theorem allowed_nfkd (c : Char) (h : isAllowed c = true) : nfkd c = [c] := by
  simp [isAllowed] at h
  unfold nfkd
  repeat rw [if_neg (by omega)]

theorem allowed_not_combining (c : Char) (h : isAllowed c = true) :
    combiningMark c = false := by
  simp [isAllowed] at h
  simp [combiningMark]
  omega

theorem noDD_tail (c : Char) (l : List Char) (h : noDD (c :: l) = true) :
    noDD l = true := by
  cases l with
  | nil => rfl
  | cons d t => simp [noDD] at h; simp [noDD, h.2]

theorem noDD_append_left (l r : List Char) (h : noDD (l ++ r) = true) :
    noDD l = true := by
  induction l with
  | nil => rfl
  | cons c l2 ih =>
    cases l2 with
    | nil => rfl
    | cons d t =>
      simp only [List.cons_append, noDD, Bool.and_eq_true] at h ⊢
      exact ⟨h.1, ih h.2⟩

theorem noDD_dropWhile (p : Char → Bool) (l : List Char) (h : noDD l = true) :
    noDD (l.dropWhile p) = true := by
  induction l with
  | nil => exact h
  | cons c t ih =>
    rw [List.dropWhile_cons]
    by_cases hp : p c = true
    · simp only [hp, if_true]
      exact ih (noDD_tail c t h)
    · simp only [hp]
      simpa using h

theorem dropTrail_append (p : Char → Bool) (l : List Char) :
    ∃ r, l = dropTrail p l ++ r := by
  induction l with
  | nil => exact ⟨[], rfl⟩
  | cons c t ih =>
    obtain ⟨r0, hr0⟩ := ih
    unfold dropTrail
    by_cases hc : (dropTrail p t).isEmpty = true ∧ p c = true
    · simp only [hc, if_true]
      exact ⟨c :: t, rfl⟩
    · simp only [hc, if_false]
      exact ⟨r0, by rw [List.cons_append, ← hr0]⟩

theorem noDD_dropTrail (p : Char → Bool) (l : List Char) (h : noDD l = true) :
    noDD (dropTrail p l) = true := by
  obtain ⟨r, hr⟩ := dropTrail_append p l
  exact noDD_append_left _ r (hr ▸ h)

theorem mem_dropTrail (p : Char → Bool) (l : List Char) (c : Char)
    (h : c ∈ dropTrail p l) : c ∈ l := by
  obtain ⟨r, hr⟩ := dropTrail_append p l
  rw [hr]
  exact List.mem_append_left r h

theorem mem_squashU (s : List Char) (c : Char) (h : c ∈ squashU s) : c ∈ s := by
  induction s with
  | nil => exact h
  | cons a l ih =>
    cases l with
    | nil => simpa [squashU] using h
    | cons d rest =>
      rw [squashU] at h
      split at h
      · exact List.mem_cons_of_mem a (ih h)
      · rcases List.mem_cons.mp h with h1 | h2
        · exact h1 ▸ List.mem_cons_self a _
        · exact List.mem_cons_of_mem a (ih h2)

theorem dropWhile_head_false (p : Char → Bool) (l : List Char) (e : Char)
    (r : List Char) (h : l.dropWhile p = e :: r) : p e = false := by
  induction l with
  | nil => simp [List.dropWhile] at h
  | cons c t ih =>
    rw [List.dropWhile_cons] at h
    by_cases hc : p c = true
    · simp only [hc, if_true] at h
      exact ih h
    · simp only [hc] at h
      rw [if_neg (by simp [hc])] at h
      cases h
      simpa using hc

theorem dropTrail_getLast_false (p : Char → Bool) (l : List Char) (c : Char)
    (h : (dropTrail p l).getLast? = some c) : p c = false := by
  induction l with
  | nil => simp [dropTrail] at h
  | cons a t ih =>
    rw [dropTrail] at h
    by_cases hc : (dropTrail p t).isEmpty = true ∧ p a = true
    · simp only [hc, if_true] at h
      simp at h
    · simp only [hc, if_false] at h
      rcases he : dropTrail p t with tnil | ⟨d, t2⟩
      · rw [he] at h
        simp at h
        subst h
        rcases Decidable.em (p a = true) with hpa | hpa
        · exact absurd ⟨by simp [he], hpa⟩ hc
        · simpa using hpa
      · rw [he] at h
        rw [List.getLast?_cons_cons] at h
        exact ih (by rw [he]; exact h)

theorem squashU_cons_not_u (c : Char) (l : List Char) (h : isU c = false) :
    squashU (c :: l) = c :: squashU l := by
  cases l with
  | nil => simp [squashU, h]
  | cons d rest => simp [squashU, h]

theorem noDD_squashU (s : List Char) : noDD (squashU s) = true := by
  induction s with
  | nil => rfl
  | cons c l ih =>
    cases l with
    | nil =>
      simp [squashU, noDD]
    | cons d rest =>
      rw [squashU]
      by_cases hcd : isU c = true ∧ isU d = true
      · simp only [hcd, if_true]
        exact ih
      · rw [if_neg (by simpa using hcd)]
        by_cases hc : isU c = true
        · have hd : isU d = false := by
            rcases Decidable.em (isU d = true) with h1 | h1
            · exact absurd ⟨hc, h1⟩ hcd
            · simpa using h1
          rw [squashU_cons_not_u d rest hd]
          rw [squashU_cons_not_u d rest hd] at ih
          simp only [noDD, Bool.and_eq_true]
          constructor
          · simp [hd]
          · exact ih
        · rcases hrec : squashU (d :: rest) with rnil | ⟨e, t⟩
          · simp [noDD]
          · rw [hrec] at ih
            simp only [noDD, Bool.and_eq_true]
            constructor
            · simp [show isU c = false by simpa using hc]
            · exact ih

theorem all_not_dropWhile_eq_self (p : Char → Bool) (l : List Char)
    (h : ∀ c ∈ l, p c = false) : l.dropWhile p = l := by
  cases l with
  | nil => rfl
  | cons c t =>
    rw [List.dropWhile_cons]
    rw [if_neg (by simp [h c (List.mem_cons_self c t)])]

theorem all_not_dropTrail_eq_self (p : Char → Bool) (l : List Char)
    (h : ∀ c ∈ l, p c = false) : dropTrail p l = l := by
  induction l with
  | nil => rfl
  | cons c t ih =>
    rw [dropTrail]
    have hc := h c (List.mem_cons_self c t)
    rw [if_neg (by simp [hc])]
    rw [ih (fun d hd => h d (List.mem_cons_of_mem c hd))]

theorem all_not_trimBoth_eq_self (p : Char → Bool) (l : List Char)
    (h : ∀ c ∈ l, p c = false) : trimBoth p l = l := by
  unfold trimBoth
  rw [all_not_dropWhile_eq_self p l h, all_not_dropTrail_eq_self p l h]

theorem map_fix (f : Char → Char) (l : List Char) (h : ∀ c ∈ l, f c = c) :
    l.map f = l := by
  rw [List.map_congr_left h]
  exact List.map_id l

theorem flatMap_singleton_fix (f : Char → List Char) (l : List Char)
    (h : ∀ c ∈ l, f c = [c]) : l.flatMap f = l := by
  induction l with
  | nil => rfl
  | cons c t ih =>
    rw [List.flatMap_cons, h c (List.mem_cons_self c t),
        ih (fun d hd => h d (List.mem_cons_of_mem c hd))]
    rfl

theorem squashWs_eq_self (l : List Char) (h : ∀ c ∈ l, isWs c = false) :
    squashWs l = l := by
  induction l with
  | nil => rfl
  | cons c t ih =>
    have hc := h c (List.mem_cons_self c t)
    cases t with
    | nil => simp [squashWs, hc]
    | cons d rest =>
      rw [squashWs]
      rw [if_neg (by simp [hc])]
      rw [if_neg (by simp [hc])]
      rw [ih (fun e he => h e (List.mem_cons_of_mem c he))]

theorem squashU_eq_self (l : List Char) (h : noDD l = true) : squashU l = l := by
  induction l with
  | nil => rfl
  | cons c t ih =>
    cases t with
    | nil => rfl
    | cons d rest =>
      rw [squashU]
      simp only [noDD, Bool.and_eq_true] at h
      rw [if_neg (fun hcd => by rw [hcd.1, hcd.2] at h; simp at h)]
      rw [ih h.2]

theorem head_dropWhile_eq_self (p : Char → Bool) (l : List Char)
    (h : ∀ c, l.head? = some c → p c = false) : l.dropWhile p = l := by
  cases l with
  | nil => rfl
  | cons c t =>
    rw [List.dropWhile_cons, if_neg (by simp [h c rfl])]

theorem last_dropTrail_eq_self (p : Char → Bool) (l : List Char)
    (h : ∀ c, l.getLast? = some c → p c = false) : dropTrail p l = l := by
  induction l with
  | nil => rfl
  | cons c t ih =>
    rw [dropTrail]
    cases t with
    | nil =>
      have hc : p c = false := h c rfl
      rw [if_neg (by simp [hc])]
      rfl
    | cons d rest =>
      have ht : dropTrail p (d :: rest) = d :: rest := by
        apply ih
        intro e he
        apply h
        rw [List.getLast?_cons_cons]
        exact he
      rw [ht]
      rw [if_neg (by simp)]

theorem mem_trimBoth (p : Char → Bool) (l : List Char) (c : Char)
    (h : c ∈ trimBoth p l) : c ∈ l := by
  unfold trimBoth at h
  have h2 := mem_dropTrail p (l.dropWhile p) c h
  exact (List.dropWhile_sublist p).mem h2

theorem cleanColL_all_allowed (s : List Char) (c : Char)
    (h : c ∈ cleanColL s) : isAllowed c = true := by
  rw [cleanColL_eq] at h
  have h2 := mem_trimBoth isU _ c h
  have h3 := mem_squashU _ c h2
  exact List.of_mem_filter h3

theorem trimBoth_head_not (p : Char → Bool) (l : List Char) (c : Char)
    (h : (trimBoth p l).head? = some c) : p c = false := by
  unfold trimBoth at h
  rcases he : dropTrail p (l.dropWhile p) with tnil | ⟨e, t⟩
  · rw [he] at h; simp at h
  · rw [he] at h
    simp at h
    obtain ⟨r, hr⟩ := dropTrail_append p (l.dropWhile p)
    rw [he] at hr
    rw [← h]
    exact dropWhile_head_false p l e (t ++ r) (by rw [hr]; rfl)

theorem cleanColL_isNormal (s : List Char) : isNormal (cleanColL s) = true := by
  have hall : ∀ c ∈ cleanColL s, isAllowed c = true := cleanColL_all_allowed s
  have hnodd : noDD (cleanColL s) = true := by
    rw [cleanColL_eq]
    unfold trimBoth
    apply noDD_dropTrail
    apply noDD_dropWhile
    apply noDD_squashU
  have hhead : headNotU (cleanColL s) = true := by
    unfold headNotU
    rcases hh : (cleanColL s).head? with hnone | c
    · rfl
    · rw [cleanColL_eq] at hh
      have := trimBoth_head_not isU _ c hh
      simp [this]
  have hlast : lastNotU (cleanColL s) = true := by
    unfold lastNotU
    rcases hh : (cleanColL s).getLast? with hnone | c
    · rfl
    · rw [cleanColL_eq] at hh
      unfold trimBoth at hh
      have := dropTrail_getLast_false isU _ c hh
      simp [this]
  unfold isNormal
  simp only [Bool.and_eq_true]
  refine ⟨⟨⟨?_, hnodd⟩, hhead⟩, hlast⟩
  rw [List.all_eq_true]
  exact hall

theorem cleanColL_fix (s : List Char) (h : isNormal s = true) :
    cleanColL s = s := by
  unfold isNormal at h
  simp only [Bool.and_eq_true, List.all_eq_true] at h
  obtain ⟨⟨⟨hall, hnodd⟩, hhead⟩, hlast⟩ := h
  have hnws : ∀ c ∈ s, isWs c = false := fun c hc => allowed_not_ws c (hall c hc)
  rw [cleanColL_eq]
  rw [all_not_trimBoth_eq_self isWs s hnws]
  rw [map_fix pyLower s (fun c hc => allowed_pyLower c (hall c hc))]
  rw [flatMap_singleton_fix nfkd s (fun c hc => allowed_nfkd c (hall c hc))]
  rw [show List.filter (fun c => !combiningMark c) s = s from
      List.filter_eq_self.mpr
        (fun c hc => by simp [allowed_not_combining c (hall c hc)])]
  rw [squashWs_eq_self s hnws]
  rw [List.filter_eq_self.mpr hall]
  rw [squashU_eq_self s hnodd]
  unfold trimBoth
  rw [head_dropWhile_eq_self isU s (fun c hc => by
        unfold headNotU at hhead
        rw [hc] at hhead
        simpa using hhead)]
  rw [last_dropTrail_eq_self isU s (fun c hc => by
        unfold lastNotU at hlast
        rw [hc] at hlast
        simpa using hlast)]

theorem cleanColL_idem (s : List Char) : cleanColL (cleanColL s) = cleanColL s :=
  cleanColL_fix (cleanColL s) (cleanColL_isNormal s)

theorem headNot_trimBoth (p : Char → Bool) (l : List Char) :
    headNot p (trimBoth p l) = true := by
  unfold headNot
  rcases hh : (trimBoth p l).head? with hnone | c
  · rfl
  · simp [trimBoth_head_not p l c hh]

theorem lastNot_trimBoth (p : Char → Bool) (l : List Char) :
    lastNot p (trimBoth p l) = true := by
  unfold lastNot
  rcases hh : (trimBoth p l).getLast? with hnone | c
  · rfl
  · unfold trimBoth at hh
    simp [dropTrail_getLast_false p _ c hh]

theorem all_dropWhile_nil (p : Char → Bool) (l : List Char)
    (h : ∀ c ∈ l, p c = true) : l.dropWhile p = [] := by
  induction l with
  | nil => rfl
  | cons c t ih =>
    rw [List.dropWhile_cons, if_pos (by simp [h c (List.mem_cons_self c t)])]
    exact ih (fun d hd => h d (List.mem_cons_of_mem c hd))

theorem all_trimBoth_nil (p : Char → Bool) (l : List Char)
    (h : ∀ c ∈ l, p c = true) : trimBoth p l = [] := by
  unfold trimBoth
  rw [all_dropWhile_nil p l h]
  rfl

theorem emptyToNA_strV (t s : List Char) (h : emptyToNA (.strV t) = .strV s) :
    s = t := by
  cases t with
  | nil => simp [emptyToNA] at h
  | cons c r =>
    simp only [emptyToNA] at h
    exact (Cell.strV.inj h).symm

theorem mem_addFile (fs : List FsPath) (p q : FsPath) (h : q ∈ addFile fs p) :
    q ∈ fs ∨ q = p := by
  unfold addFile at h
  by_cases hp : p ∈ fs
  · rw [if_pos hp] at h
    exact Or.inl h
  · rw [if_neg hp] at h
    rcases List.mem_append.mp h with h1 | h2
    · exact Or.inl h1
    · exact Or.inr (by simpa using h2)

theorem self_mem_addFile (fs : List FsPath) (p : FsPath) : p ∈ addFile fs p := by
  unfold addFile
  by_cases hp : p ∈ fs
  · rw [if_pos hp]; exact hp
  · rw [if_neg hp]; simp

theorem mem_addFile_of_mem (fs : List FsPath) (p q : FsPath) (h : q ∈ fs) :
    q ∈ addFile fs p := by
  unfold addFile
  by_cases hp : p ∈ fs
  · rw [if_pos hp]; exact h
  · rw [if_neg hp]; exact List.mem_append_left _ h

/-- C3: `clean_col` is exactly the spec's six-step normalization
(a) trim and lowercase, (b) decompose and drop combining marks,
(c) whitespace runs to one underscore, (d) delete all but
`[a-z0-9_]`, (e) collapse underscore runs, (f) trim underscores,
applied in that order, and it is a pure (deterministic) function of
its input. -/
theorem clean_col_matches_spec :
    (∀ s : String, clean_col s = cleanColSpec s) ∧
    (∀ s t : String, s = t → clean_col s = clean_col t) := by
  constructor
  · intro s
    rfl
  · intro s t h
    rw [h]

/-- Witness for C3 at a concrete header string. -/
theorem clean_col_matches_spec_witness :
    clean_col "Año  de Reporte" = cleanColSpec "Año  de Reporte" ∧
    clean_col "Año  de Reporte" = clean_col "Año  de Reporte" :=
  ⟨clean_col_matches_spec.1 "Año  de Reporte",
   clean_col_matches_spec.2 "Año  de Reporte" "Año  de Reporte" rfl⟩

/-- C10: `clean_col` is idempotent, and on the spec's examples:
`"Año  de Reporte"` and `"ano_de_reporte"` both normalize to
`"ano_de_reporte"`, and `"Municipio (Residencia)"` to
`"municipio_residencia"`. -/
theorem clean_col_idempotent :
    (∀ s : String, clean_col (clean_col s) = clean_col s) ∧
    clean_col "Año  de Reporte" = "ano_de_reporte" ∧
    clean_col "ano_de_reporte" = "ano_de_reporte" ∧
    clean_col "Municipio (Residencia)" = "municipio_residencia" := by
  refine ⟨?_, by decide, by decide, by decide⟩
  intro s
  show String.mk (cleanColL (String.mk (cleanColL s.data)).data) = _
  rw [show (String.mk (cleanColL s.data)).data = cleanColL s.data from rfl,
      cleanColL_idem]
  rfl

/-- C1 counterexample: on a dataset where the two range-checked
columns are present and `edad_madre` holds the out-of-range value 99
while five other required columns are missing, ValidateContract
reports only the missing columns — the age range check is never
evaluated, so an out-of-range value is not reported as a violation,
contradicting the claimed independence of the contract rules. -/
theorem contract_rules_not_independent :
    validateContract dfC1 =
      .error (.missingColumns
        ["periodo_de_reporte", "sexo", "fecha_nacimiento",
         "municipio_residencia", "edad_padre"]) ∧
    rangeViolation 10 60 [Cell.intV 99] = true ∧
    validateContract dfC1 ≠ .error .edadMadreRange := by
  refine ⟨by decide, by decide, by decide⟩

/-- C1 (amended): the contract rules are checked sequentially, not
independently: if any required column is missing ValidateContract
raises at once, naming the missing columns, and neither range check
is evaluated; only when all required columns are present does the
mother's-age check run, and only when it passes does the report-year
check run. -/
theorem validateContract_sequential (df : List Column) :
    (required_cols.filter (fun c => !(colNames df).contains c) ≠ [] →
      validateContract df =
        .error (.missingColumns
          (required_cols.filter (fun c => !(colNames df).contains c)))) ∧
    (required_cols.filter (fun c => !(colNames df).contains c) = [] →
      ∀ e, checkEdadMadre df = .error e → validateContract df = .error e) ∧
    (required_cols.filter (fun c => !(colNames df).contains c) = [] →
      checkEdadMadre df = .ok () → validateContract df = checkAno df) := by
  refine ⟨?_, ?_, ?_⟩
  · intro hne
    unfold validateContract
    rw [if_pos (by simpa using hne)]
  · intro hmt e he
    unfold validateContract
    rw [if_neg (by rw [hmt]; simp), he]
  · intro hmt hok
    unfold validateContract
    rw [if_neg (by rw [hmt]; simp), hok]

/-- Witness for C1's amended theorem at concrete datasets: on `dfC1`
the missing-column branch fires, and on the complete dataset `dfOK`
the age check passes and validation reduces to the year check. -/
theorem validateContract_sequential_witness :
    validateContract dfC1 =
      .error (.missingColumns
        (required_cols.filter (fun c => !(colNames dfC1).contains c))) ∧
    validateContract dfOK = checkAno dfOK :=
  ⟨(validateContract_sequential dfC1).1 (by decide),
   (validateContract_sequential dfOK).2.2 (by decide) (by decide)⟩

/-- C4: the range checks accept a non-missing mother's age `v` exactly
when `10 ≤ v ≤ 60` and a non-missing report year `y` exactly when
`2000 ≤ y ≤ 2035`; the boundary values 10, 60, 2000, 2035 pass while
9, 61, 1999, 2036 fail; and a missing cell never contributes a range
violation. -/
theorem contract_range_boundaries :
    (∀ v : Int, cellOutOfRange 10 60 (.intV v) = false ↔ (10 ≤ v ∧ v ≤ 60)) ∧
    (∀ y : Int, cellOutOfRange 2000 2035 (.intV y) = false ↔ (2000 ≤ y ∧ y ≤ 2035)) ∧
    rangeViolation 10 60 [.intV 10, .intV 60, .na] = false ∧
    rangeViolation 10 60 [.intV 9] = true ∧
    rangeViolation 10 60 [.intV 61] = true ∧
    rangeViolation 2000 2035 [.intV 2000, .intV 2035, .na] = false ∧
    rangeViolation 2000 2035 [.intV 1999] = true ∧
    rangeViolation 2000 2035 [.intV 2036] = true ∧
    (∀ lo hi : Int, cellOutOfRange lo hi .na = false) ∧
    (∀ lo hi : Int, ∀ cells : List Cell,
      rangeViolation lo hi (Cell.na :: cells) = rangeViolation lo hi cells) := by
  refine ⟨?_, ?_, by decide, by decide, by decide, by decide, by decide,
          by decide, ?_, ?_⟩
  · intro v
    simp [cellOutOfRange]
  · intro y
    simp [cellOutOfRange]
  · intro lo hi
    rfl
  · intro lo hi cells
    simp [rangeViolation, cellOutOfRange]

/-- C6: after StandardizeValues, every text cell of a text-typed
column carries no leading or trailing whitespace, and every cell that
held an empty or whitespace-only string is the missing marker; the
per-cell trim is applied before the dataset-wide empty-to-missing
replacement (the result column maps each original cell through
stringify, then trim, then empty-to-missing), which is why
whitespace-only text always ends up missing. -/
theorem standardizeValues_behavior :
    (∀ c : Cell, ∀ s : List Char,
      emptyToNA (stripCell (cellAsString c)) = .strV s →
      headNot isWs s = true ∧ lastNot isWs s = true) ∧
    (∀ w : List Char, w.all isWs = true →
      emptyToNA (stripCell (cellAsString (.strV w))) = .na) ∧
    (∀ col : Column, col.isText = true →
      ∀ cell ∈ (replaceEmptyColumn (standardizeColumn col)).cells,
        ∀ s, cell = .strV s → headNot isWs s = true ∧ lastNot isWs s = true) ∧
    (∀ col : Column, col.isText = true →
      (replaceEmptyColumn (standardizeColumn col)).cells =
        col.cells.map (fun c => emptyToNA (stripCell (cellAsString c)))) ∧
    (∀ df : List Column,
      standardizeValues df = (df.map standardizeColumn).map replaceEmptyColumn) := by
  have key : ∀ c : Cell, ∀ s : List Char,
      emptyToNA (stripCell (cellAsString c)) = .strV s →
      headNot isWs s = true ∧ lastNot isWs s = true := by
    intro c s h
    cases c with
    | na => exact absurd h (by simp [cellAsString, stripCell, emptyToNA])
    | intV n =>
      have hs := emptyToNA_strV _ _ h
      rw [hs]
      exact ⟨headNot_trimBoth isWs _, lastNot_trimBoth isWs _⟩
    | strV w =>
      have hs := emptyToNA_strV _ _ h
      rw [hs]
      exact ⟨headNot_trimBoth isWs _, lastNot_trimBoth isWs _⟩
  have hmapped : ∀ col : Column, col.isText = true →
      (replaceEmptyColumn (standardizeColumn col)).cells =
        col.cells.map (fun c => emptyToNA (stripCell (cellAsString c))) := by
    intro col h
    simp [replaceEmptyColumn, standardizeColumn, h, List.map_map]
  refine ⟨key, ?_, ?_, hmapped, fun df => rfl⟩
  · intro w hall
    have hw : ∀ c ∈ w, isWs c = true := List.all_eq_true.mp hall
    show emptyToNA (stripCell (.strV w)) = .na
    show emptyToNA (.strV (trimBoth isWs w)) = .na
    rw [all_trimBoth_nil isWs w hw]
    rfl
  · intro col h cell hc s hcs
    rw [hmapped col h] at hc
    obtain ⟨a, ha, hfa⟩ := List.mem_map.mp hc
    exact key a s (by rw [hfa, hcs])

/-- Witness for C6 at concrete cells and a concrete column: the text
`" a "` is trimmed to `"a"` with no edge whitespace, and the
whitespace-only text `"  "` becomes the missing marker. -/
theorem standardizeValues_behavior_witness :
    (headNot isWs ['a'] = true ∧ lastNot isWs ['a'] = true) ∧
    emptyToNA (stripCell (cellAsString (.strV [' ', ' ']))) = .na ∧
    (replaceEmptyColumn (standardizeColumn ⟨"sexo", true, [Cell.strV [' ', 'a', ' ']]⟩)).cells =
      [Cell.strV [' ', 'a', ' ']].map
        (fun c => emptyToNA (stripCell (cellAsString c))) :=
  ⟨standardizeValues_behavior.1 (Cell.strV [' ', 'a', ' ']) ['a'] (by decide),
   standardizeValues_behavior.2.1 [' ', ' '] (by decide),
   standardizeValues_behavior.2.2.2.1 ⟨"sexo", true, [Cell.strV [' ', 'a', ' ']]⟩
     (by decide)⟩

theorem checkEdadMadre_err (df : List Column) (e : SilverErr)
    (h : checkEdadMadre df = .error e) : e = .edadMadreRange := by
  unfold checkEdadMadre at h
  rcases hf : findCol df "edad_madre" with hnone | col
  · simp only [hf] at h
    exact Except.noConfusion h
  · simp only [hf] at h
    by_cases hr : rangeViolation 10 60 col.cells = true
    · rw [if_pos hr] at h
      exact (Except.error.inj h).symm
    · rw [if_neg hr] at h
      simp at h

theorem checkAno_err (df : List Column) (e : SilverErr)
    (h : checkAno df = .error e) : e = .anoRange := by
  unfold checkAno at h
  rcases hf : findCol df "ano" with hnone | col
  · simp only [hf] at h
    exact Except.noConfusion h
  · simp only [hf] at h
    by_cases hr : rangeViolation 2000 2035 col.cells = true
    · rw [if_pos hr] at h
      exact (Except.error.inj h).symm
    · rw [if_neg hr] at h
      simp at h

theorem validateContract_err (df : List Column) (e : SilverErr)
    (h : validateContract df = .error e) :
    (∃ cols, e = .missingColumns cols) ∨ e = .edadMadreRange ∨ e = .anoRange := by
  unfold validateContract at h
  by_cases hm : (!(required_cols.filter
      (fun c => !(colNames df).contains c)).isEmpty) = true
  · rw [if_pos hm] at h
    exact Or.inl ⟨_, (Except.error.inj h).symm⟩
  · rw [if_neg hm] at h
    rcases he : checkEdadMadre df with e2 | u
    · rw [he] at h
      exact Or.inr (Or.inl (by rw [← (Except.error.inj h)]; exact checkEdadMadre_err df e2 he))
    · rw [he] at h
      exact Or.inr (Or.inr (checkAno_err df e h))

theorem silverTransform_err (df : List Column) (e : SilverErr)
    (h : silverTransform df = .error e) :
    (∃ m, e = .castFailed m) ∨ (∃ cols, e = .missingColumns cols) ∨
      e = .edadMadreRange ∨ e = .anoRange := by
  unfold silverTransform at h
  rcases ht : hardenTypes (dropUnnamed (standardizeValues (normalizeSchema df))) with m | df4
  · simp only [ht] at h
    exact Or.inl ⟨m, (Except.error.inj h).symm⟩
  · simp only [ht] at h
    rcases hv : validateContract df4 with e2 | u
    · simp only [hv] at h
      have hinj : e2 = e := Except.error.inj h
      subst hinj
      rcases validateContract_err df4 e2 hv with ⟨cols, hc⟩ | hc | hc
      · exact Or.inr (Or.inl ⟨cols, hc⟩)
      · exact Or.inr (Or.inr (Or.inl hc))
      · exact Or.inr (Or.inr (Or.inr hc))
    · simp only [hv] at h
      exact Except.noConfusion h

theorem silverTransform_err_shape (df : List Column) (e : SilverErr)
    (h : silverTransform df = .error e) :
    (∀ p, e ≠ .rawNotFound p) ∧ (∀ m, e ≠ .loadFailed m) ∧ e ≠ .writeFailed := by
  rcases silverTransform_err df e h with ⟨m, hc⟩ | ⟨cols, hc⟩ | hc | hc <;>
    subst hc <;>
    exact ⟨fun p hp => SilverErr.noConfusion hp,
           fun m2 hm => SilverErr.noConfusion hm,
           fun hw => SilverErr.noConfusion hw⟩

/-- C2: if any step of the Transformation Stage raises before Persist
(missing raw file, load failure, failed integer cast, missing required
column, or out-of-range value), the run writes neither the silver
parquet nor its `_SUCCESS` marker; the two artifacts are written, in
that order, exactly on the terminal state in which every step
completed, so the stage never produces a partial silver output. -/
theorem silver_no_partial_output (fs : List FsPath) (cfg : SilverCfg)
    (load : Except String (List Column)) (pOk kp : Bool) :
    (∀ e : SilverErr, (silverRun fs cfg load pOk kp).outcome = .error e →
      e ≠ .writeFailed → (silverRun fs cfg load pOk kp).writes = []) ∧
    ((silverRun fs cfg load pOk kp).outcome = .ok () →
      (silverRun fs cfg load pOk kp).writes =
        [silverOutParquet cfg, silverSuccessMarker cfg]) ∧
    ((silverRun fs cfg load pOk kp).writes ≠ [] →
      (silverRun fs cfg load pOk kp).outcome = .ok ()) := by
  unfold silverRun
  by_cases hraw : silverRawFile cfg ∉ fs
  · rw [if_pos hraw]
    simp
  · rw [if_neg hraw]
    cases load with
    | error m => simp
    | ok df =>
      rcases ht : silverTransform df with e | df2
      · simp only [ht]
        simp
      · simp only [ht]
        cases pOk with
        | true => simp
        | false => simp

/-- Witness for C2: with the raw file absent nothing is written, and
on a complete run both artifacts are written in order. -/
theorem silver_no_partial_output_witness :
    (silverRun [] cfgS0 (.ok dfOK) true true).writes = [] ∧
    (silverRun [silverRawFile cfgS0] cfgS0 (.ok dfOK) true true).writes =
      [silverOutParquet cfgS0, silverSuccessMarker cfgS0] :=
  ⟨(silver_no_partial_output [] cfgS0 (.ok dfOK) true true).1
     (.rawNotFound (silverRawFile cfgS0)) (by decide) (by decide),
   (silver_no_partial_output [silverRawFile cfgS0] cfgS0 (.ok dfOK) true true).2.1
     (by decide)⟩

/-- C5 counterexample: configure the source file as
`data/milagros/other.xlsx` — the Landing Stage then writes
`raw/milagros/ingest_date=2026-01-30/other.xlsx`, while the
Transformation Stage reads the fixed path
`raw/milagros/ingest_date=2026-01-30/Nacimientos_HGM.xlsx`; the two
differ, refuting the claimed equality for every configuration. -/
theorem silver_raw_path_mismatch :
    landDest ⟨["raw", "milagros"], "2026-01-30", ["data", "milagros"], "other.xlsx"⟩ ≠
      silverRawFile cfgS0 := by decide

/-- C5 (amended): the Transformation Stage reads
`{raw_base}/ingest_date={date}/Nacimientos_HGM.xlsx` with a fixed
filename; this equals the Landing Stage's destination exactly when
the configured source file is named `Nacimientos_HGM.xlsx` (true of
the default configuration), and the stage fails with a
source-not-found error naming that path exactly when the file is
absent. -/
theorem silver_raw_path_amended (rb sd sb : FsPath) (d sn : String) :
    silverRawFile ⟨rb, sb, d⟩ =
      rb ++ ["ingest_date=" ++ d, "Nacimientos_HGM.xlsx"] ∧
    (landDest ⟨rb, d, sd, sn⟩ = silverRawFile ⟨rb, sb, d⟩ ↔
      sn = "Nacimientos_HGM.xlsx") ∧
    (∀ (fs : List FsPath) (load : Except String (List Column)) (pOk kp : Bool),
      silverRawFile ⟨rb, sb, d⟩ ∉ fs ↔
        (silverRun fs ⟨rb, sb, d⟩ load pOk kp).outcome =
          .error (.rawNotFound (silverRawFile ⟨rb, sb, d⟩))) := by
  refine ⟨rfl, ?_, ?_⟩
  · constructor
    · intro h
      unfold landDest landOutDir silverRawFile at h
      rw [List.append_assoc] at h
      have := List.append_cancel_left h
      simpa using this
    · intro h
      unfold landDest landOutDir silverRawFile
      rw [h, List.append_assoc]
      rfl
  · intro fs load pOk kp
    constructor
    · intro h
      unfold silverRun
      rw [if_pos h]
    · intro h
      by_contra h2
      unfold silverRun at h
      rw [if_neg (not_not_intro h2)] at h
      cases load with
      | error m => exact SilverErr.noConfusion (Except.error.inj h)
      | ok df =>
        rcases ht : silverTransform df with e | df2
        · simp only [ht] at h
          exact (silverTransform_err_shape df e ht).1 _ (Except.error.inj h)
        · simp only [ht] at h
          cases pOk with
          | true => simp at h
          | false => simp at h

/-- C8: the Landing Stage is idempotent per partition key: whenever
the marker and the destination file both already exist, the run
performs no write, reports a skip, and terminates successfully — for
every state of the configured source file, an absent source included,
because the skip check precedes source validation — and a second run
after a completed (landed or skipped) run leaves the filesystem
unchanged and skips. -/
theorem landing_idempotent (fs : List FsPath) (cfg : LandingCfg) (c1 p1 : Bool) :
    (landMarker cfg ∈ fs → landDest cfg ∈ fs →
      landingRun fs cfg c1 p1 = (fs, .skipped)) ∧
    (∀ c2 p2 : Bool,
      (landingRun fs cfg c1 p1).2 = .landed ∨
        (landingRun fs cfg c1 p1).2 = .skipped →
      landingRun (landingRun fs cfg c1 p1).1 cfg c2 p2 =
        ((landingRun fs cfg c1 p1).1, .skipped)) := by
  constructor
  · intro h1 h2
    unfold landingRun
    rw [if_pos ⟨h1, h2⟩]
  · intro c2 p2 hout
    by_cases hsk : landMarker cfg ∈ fs ∧ landDest cfg ∈ fs
    · have hrun : landingRun fs cfg c1 p1 = (fs, .skipped) := by
        unfold landingRun
        rw [if_pos hsk]
      rw [hrun]
      unfold landingRun
      rw [if_pos hsk]
    · by_cases hsrc : landSource cfg ∉ fs
      · have hrun : landingRun fs cfg c1 p1 = (fs, .sourceMissing) := by
          unfold landingRun
          rw [if_neg hsk, if_pos hsrc]
        rw [hrun] at hout
        simp at hout
      · cases c1 with
        | true =>
          have hrun : landingRun fs cfg true p1 =
              (addFile (addFile fs (landDest cfg)) (landMarker cfg), .landed) := by
            unfold landingRun
            rw [if_neg hsk, if_neg hsrc, if_pos rfl]
          rw [hrun]
          unfold landingRun
          rw [if_pos ⟨self_mem_addFile _ _,
                mem_addFile_of_mem _ _ _ (self_mem_addFile _ _)⟩]
        | false =>
          have hrun : landingRun fs cfg false p1 =
              ((if p1 then addFile fs (landDest cfg) else fs), .copyFailed) := by
            unfold landingRun
            rw [if_neg hsk, if_neg hsrc, if_neg (by simp)]
          rw [hrun] at hout
          simp at hout

/-- Witness for C8: with both artifacts present the run skips, and a
second run after a successful landing skips and changes nothing. -/
theorem landing_idempotent_witness :
    landingRun [landMarker cfgL0, landDest cfgL0] cfgL0 true true =
      ([landMarker cfgL0, landDest cfgL0], .skipped) ∧
    landingRun (landingRun [landSource cfgL0] cfgL0 true true).1 cfgL0 false false =
      ((landingRun [landSource cfgL0] cfgL0 true true).1, .skipped) :=
  ⟨(landing_idempotent [landMarker cfgL0, landDest cfgL0] cfgL0 true true).1
     (by decide) (by decide),
   (landing_idempotent [landSource cfgL0] cfgL0 true true).2 false false
     (by decide)⟩

/-- C9: in both stages the `_SUCCESS` marker is written last: a marker
that is present after the run but not before implies the copy (resp.
parquet write) succeeded, the sibling data artifact is present, and
the stage reached its successful terminal state; when the copy or
write raises, the marker is never created.  The landing conjunct
assumes the configured source file is not itself named `_SUCCESS`
(otherwise the partial copy of that pathological configuration would
occupy the marker path). -/
theorem marker_written_last (fs : List FsPath) (cfgL : LandingCfg)
    (cfgS : SilverCfg) (c1 p1 : Bool) (load : Except String (List Column))
    (pOk kp : Bool) :
    (cfgL.sourceName ≠ "_SUCCESS" →
      landMarker cfgL ∈ (landingRun fs cfgL c1 p1).1 →
      landMarker cfgL ∉ fs →
      c1 = true ∧ landDest cfgL ∈ (landingRun fs cfgL c1 p1).1 ∧
        (landingRun fs cfgL c1 p1).2 = .landed) ∧
    (silverSuccessMarker cfgS ∈ (silverRun fs cfgS load pOk kp).fs →
      silverSuccessMarker cfgS ∉ fs →
      pOk = true ∧ silverOutParquet cfgS ∈ (silverRun fs cfgS load pOk kp).fs ∧
        (silverRun fs cfgS load pOk kp).outcome = .ok ()) := by
  constructor
  · intro hsn hmem hnot
    by_cases hsk : landMarker cfgL ∈ fs ∧ landDest cfgL ∈ fs
    · exact absurd hsk.1 hnot
    · by_cases hsrc : landSource cfgL ∉ fs
      · have hrun : landingRun fs cfgL c1 p1 = (fs, .sourceMissing) := by
          unfold landingRun
          rw [if_neg hsk, if_pos hsrc]
        rw [hrun] at hmem
        exact absurd hmem hnot
      · cases c1 with
        | true =>
          have hrun : landingRun fs cfgL true p1 =
              (addFile (addFile fs (landDest cfgL)) (landMarker cfgL), .landed) := by
            unfold landingRun
            rw [if_neg hsk, if_neg hsrc, if_pos rfl]
          rw [hrun]
          exact ⟨rfl,
            mem_addFile_of_mem _ _ _ (self_mem_addFile _ _), rfl⟩
        | false =>
          have hrun : landingRun fs cfgL false p1 =
              ((if p1 then addFile fs (landDest cfgL) else fs), .copyFailed) := by
            unfold landingRun
            rw [if_neg hsk, if_neg hsrc, if_neg (by simp)]
          rw [hrun] at hmem
          cases p1 with
          | false =>
            simp only [Bool.false_eq_true, if_false] at hmem
            exact absurd hmem hnot
          | true =>
            simp only [if_true] at hmem
            rcases mem_addFile _ _ _ hmem with hin | heq
            · exact absurd hin hnot
            · unfold landMarker landDest at heq
              have := List.append_cancel_left heq
              simp at this
              exact absurd this.symm hsn
  · intro hmem hnot
    by_cases hraw : silverRawFile cfgS ∉ fs
    · have hrun : silverRun fs cfgS load pOk kp =
          ⟨fs, [], .error (.rawNotFound (silverRawFile cfgS))⟩ := by
        unfold silverRun
        rw [if_pos hraw]
      rw [hrun] at hmem
      exact absurd hmem hnot
    · cases load with
      | error m =>
        have hrun : silverRun fs cfgS (.error m) pOk kp =
            ⟨fs, [], .error (.loadFailed m)⟩ := by
          unfold silverRun
          rw [if_neg hraw]
        rw [hrun] at hmem
        exact absurd hmem hnot
      | ok df =>
        rcases ht : silverTransform df with e | df2
        · have hrun : silverRun fs cfgS (.ok df) pOk kp = ⟨fs, [], .error e⟩ := by
            unfold silverRun
            rw [if_neg hraw]
            simp only [ht]
          rw [hrun] at hmem
          exact absurd hmem hnot
        · cases pOk with
          | true =>
            have hrun : silverRun fs cfgS (.ok df) true kp =
                ⟨addFile (addFile fs (silverOutParquet cfgS)) (silverSuccessMarker cfgS),
                 [silverOutParquet cfgS, silverSuccessMarker cfgS], .ok ()⟩ := by
              unfold silverRun
              rw [if_neg hraw]
              simp only [ht]
              simp
            rw [hrun]
            exact ⟨rfl, mem_addFile_of_mem _ _ _ (self_mem_addFile _ _), rfl⟩
          | false =>
            cases kp with
            | false =>
              have hrun : silverRun fs cfgS (.ok df) false false =
                  ⟨fs, [], .error .writeFailed⟩ := by
                unfold silverRun
                rw [if_neg hraw]
                simp only [ht]
                simp
              rw [hrun] at hmem
              exact absurd hmem hnot
            | true =>
              have hrun : silverRun fs cfgS (.ok df) false true =
                  ⟨addFile fs (silverOutParquet cfgS), [], .error .writeFailed⟩ := by
                unfold silverRun
                rw [if_neg hraw]
                simp only [ht]
                simp
              rw [hrun] at hmem
              rcases mem_addFile _ _ _ hmem with hin | heq
              · exact absurd hin hnot
              · unfold silverSuccessMarker silverOutParquet at heq
                have := List.append_cancel_left heq
                simp at this

/-- Witness for C9 at concrete runs of both stages. -/
theorem marker_written_last_witness :
    (true = true ∧
      landDest cfgL0 ∈ (landingRun [landSource cfgL0] cfgL0 true true).1 ∧
      (landingRun [landSource cfgL0] cfgL0 true true).2 = .landed) ∧
    (true = true ∧
      silverOutParquet cfgS0 ∈
        (silverRun [silverRawFile cfgS0] cfgS0 (.ok dfOK) true true).fs ∧
      (silverRun [silverRawFile cfgS0] cfgS0 (.ok dfOK) true true).outcome =
        .ok ()) :=
  ⟨(marker_written_last [landSource cfgL0] cfgL0 cfgS0 true true
      (.ok dfOK) true true).1 (by decide) (by decide) (by decide),
   (marker_written_last [silverRawFile cfgS0] cfgL0 cfgS0 true true
      (.ok dfOK) true true).2 (by decide) (by decide)⟩

end Milagros
